import Mathlib

/-!
Verification of the configuration resolution engine of
`packages/core/src/utils/ConfigurationLoader.ts`.

JavaScript runtime values that can appear in a config export are modelled by
the inductive type `JValue`: strings, integers (numeric env values are
restricted to integers in this model), booleans, `null`, arrays, plain
objects (ordered association lists of fields, as JS objects have ordered,
duplicate-free keys) and functions (config factories, modelled as Lean
functions from the requested context name to the produced value).

External collaborators (the filesystem existence probe, the module loader,
the manifest reader, the environment snapshot) are passed in as explicit
parameters, matching the spec's treatment of them as opaque capabilities.
-/

namespace ConfigurationLoader

/-- A JavaScript value as it can appear in a MikroORM configuration export. -/
inductive JValue where
  | str : String → JValue
  | num : Int → JValue
  | bool : Bool → JValue
  | null : JValue
  | arr : List JValue → JValue
  | obj : List (String × JValue) → JValue
  | func : (String → JValue) → JValue

instance : Inhabited JValue := ⟨JValue.null⟩

/-- Fields of a JS object, in insertion order. -/
abbrev Fields := List (String × JValue)

/-- Property access `o[k]`: the first field named `k` (JS objects have
    duplicate-free keys, so "first" is exact on faithful inputs). -/
def lookupKey : Fields → String → Option JValue
  | [], _ => none
  | (k, v) :: rest, key => if k == key then some v else lookupKey rest key

/-- Property assignment `o[k] = v`: overwrite in place, or append a new field. -/
def assign : Fields → String → JValue → Fields
  | [], key, v => [(key, v)]
  | (k, w) :: rest, key, v =>
    if k == key then (key, v) :: rest else (k, w) :: assign rest key v

/-- `Utils.hasObjectKeys(o)`. Modelled from the spec: the helper lives in
    `Utils.ts` (outside the provided sources); per the spec it tests whether
    the options mapping is non-empty. -/
def hasObjectKeys : JValue → Bool
  | .obj fs => !fs.isEmpty
  | _ => false

mutual

/-- `Utils.mergeConfig` merging one source into a target. Modelled from the
    spec: `Utils.mergeConfig` lives in `Utils.ts` (outside the provided
    sources); per the spec, nested mappings merge recursively key-wise and
    non-mapping values (arrays and scalars included) are replaced wholesale
    by the later source. -/
def mergeTwo : JValue → JValue → JValue
  | .obj fa, .obj fb => .obj (mergeInto fa fb)
  | _, b => b
termination_by _a b => sizeOf b
decreasing_by all_goals simp_wf

/-- Merge the fields of a source object into target fields, key by key. -/
def mergeInto : Fields → Fields → Fields
  | fa, [] => fa
  | fa, (k, v) :: rest =>
    mergeInto
      (assign fa k
        (match lookupKey fa k with
          | some old => mergeTwo old v
          | none => v))
      rest
termination_by _fa fb => sizeOf fb
decreasing_by all_goals simp_wf; all_goals omega

end

/-- `Utils.mergeConfig(base, ...sources)`: fold the sources into the base,
    later sources taking precedence. Modelled from the spec (see `mergeTwo`). -/
def mergeConfig (base : JValue) (sources : List JValue) : JValue :=
  sources.foldl mergeTwo base

/-- `const falsyStrings = ['false', 'f', '0', 'no', 'n', '']`. -/
def falsyStrings : List String := ["false", "f", "0", "no", "n", ""]

/-- `const truthyStrings = ['true', 't', '1', 'yes', 'y']`. -/
def truthyStrings : List String := ["true", "t", "1", "yes", "y"]

/-- `const toBoolean = (value: string) => truthyStrings.includes(value)`. -/
def toBoolean (value : String) : Bool :=
  truthyStrings.contains value

/-- The `LoaderOption` values this subsystem can produce: `false` (loader
    disabled) or a loader name string (including the special names `auto`
    and `native`). -/
inductive LoaderOption where
  | off : LoaderOption
  | name : String → LoaderOption
deriving DecidableEq, Repr

/-- JS `value.toLowerCase()`, over the ASCII range (the recognized boolean
    strings are all ASCII). -/
def jsToLowerCase (s : String) : String :=
  String.mk (s.data.map Char.toLower)

/-- JS `s.endsWith(pat)`, modelled over the character list (the built-in
    `String.endsWith` is opaque to proofs). -/
def strEndsWith (s pat : String) : Bool :=
  pat.data.isSuffixOf s.data

/-- JS `s.startsWith(pat)`, modelled over the character list. -/
def strStartsWith (s pat : String) : Bool :=
  pat.data.isPrefixOf s.data

/-- JS `s.substring(n)` (drop the first `n` characters), modelled over the
    character list. -/
def strDrop (s : String) (n : Nat) : String :=
  String.mk (s.data.drop n)

/-- `loaderOptionFromEnv(value)`: decode `MIKRO_ORM_CLI_LOADER`. -/
def loaderOptionFromEnv (value : String) : LoaderOption :=
  let maybeBoolean := jsToLowerCase value
  if falsyStrings.contains maybeBoolean then
    .off
  else if truthyStrings.contains maybeBoolean then
    .name "auto"
  else
    .name value

/-- The errors `getConfiguration` and `checkPackageVersion` can throw,
    carrying the data interpolated into their messages. -/
inductive ConfigError where
  | notFound (paths : List String)
  | notFoundInArray (contextName path : String)
  | notUnique (contextName path : String) (firstIdx lastIdx : Nat)
  | factoryMismatch (contextName path : String)
  | objectMismatch (contextName path : String)
  | versionMismatch (pkg version coreVersion : String)
deriving DecidableEq, Repr

/-- The message string of each thrown `Error`, as built by the template
    literals in the source (color wrappers of the version-mismatch message
    are modelled as identity, the color module being an external
    collaborator). -/
def errorMessage : ConfigError → String
  | .notFound paths =>
    "MikroORM config file not found in [\x27" ++
      String.intercalate "\x27, \x27" paths ++ "\x27]"
  | .notFoundInArray contextName path =>
    "MikroORM config \x27" ++ contextName ++ "\x27 was not found within the config file \x27" ++
      path ++ "\x27. Either add a config with this name to the array, or add a function that " ++
      "when given this name will return a configuration object without a name, or with name " ++
      "set to this name."
  | .notUnique contextName path firstIdx lastIdx =>
    "MikroORM config \x27" ++ contextName ++ "\x27 is not unique within the array exported by \x27" ++
      path ++ "\x27 (first occurrence index: " ++ toString firstIdx ++
      "; last occurrence index: " ++ toString lastIdx ++ ")"
  | .factoryMismatch contextName path =>
    "MikroORM config \x27" ++ contextName ++ "\x27 was not what the function exported from \x27" ++
      path ++ "\x27 provided. Ensure it returns a config object with no name, or name matching " ++
      "the requested one."
  | .objectMismatch contextName path =>
    "MikroORM config \x27" ++ contextName ++ "\x27 was not what the default export from \x27" ++
      path ++ "\x27 provided."
  | .versionMismatch pkg version coreVersion =>
    "Bad " ++ pkg ++ " version " ++ version ++ ".\n" ++
      "All official @mikro-orm/* packages need to have the exact same version as " ++
      "@mikro-orm/core (" ++ coreVersion ++ ").\n" ++
      "Only exceptions are packages that don\x27t live in the \x27mikro-orm\x27 repository: " ++
      "nestjs, sql-highlighter, mongo-highlighter.\n" ++
      "Maybe you want to check, or regenerate your yarn.lock or package-lock.json file?"

/-- JS strict equality `v === s` between a runtime value and a string. -/
def jsStrEq : JValue → String → Bool
  | .str t, s => t == s
  | _, _ => false

/-- `configFinder(cfg)`: `typeof cfg === 'object' && cfg !== null &&
    ('contextName' in cfg ? cfg.contextName === contextName : contextName === 'default')`.
    In JS, arrays also have `typeof 'object'` and never own a `contextName`
    key, while functions have `typeof 'function'` and never qualify. -/
def configFinder (contextName : String) : JValue → Bool
  | .obj fs =>
    match lookupKey fs "contextName" with
    | some v => jsStrEq v contextName
    | none => contextName == "default"
  | .arr _ => contextName == "default"
  | _ => false

/-- `isValidConfigFactoryResult(cfg)`: `typeof cfg === 'object' && cfg !== null &&
    (!('contextName' in cfg) || cfg.contextName === contextName)`. -/
def isValidConfigFactoryResult (contextName : String) : JValue → Bool
  | .obj fs =>
    match lookupKey fs "contextName" with
    | some v => jsStrEq v contextName
    | none => true
  | .arr _ => true
  | _ => false

/-- `Array.prototype.findIndex`, as an `Option Nat`. -/
def findFirstIdx? (p : α → Bool) : List α → Option Nat
  | [] => none
  | x :: xs => if p x then some 0 else (findFirstIdx? p xs).map (· + 1)

/-- `Array.prototype.findLastIndex`, as an `Option Nat`. -/
def findLastIdx? (p : α → Bool) : List α → Option Nat
  | [] => none
  | x :: xs =>
    match findLastIdx? p xs with
    | some i => some (i + 1)
    | none => if p x then some 0 else none

/-- The factory-fallback loop of `getConfiguration` (source lines 123-135):
    walk the array in order, skip non-functions, invoke each function with
    the requested context name, and stop at the first result accepted by
    `isValidConfigFactoryResult`. -/
def firstFactoryResult (contextName : String) : List JValue → Option JValue
  | [] => none
  | .func f :: rest =>
    let candidate := f contextName
    if isValidConfigFactoryResult contextName candidate then some candidate
    else firstFactoryResult contextName rest
  | _ :: rest => firstFactoryResult contextName rest

/-- `Array.isArray`. -/
def JValue.isArr : JValue → Bool
  | .arr _ => true
  | _ => false

/-- The multi-config disambiguation step of `getConfiguration` (source lines
    119-158): reduce the raw export `tmp` of the config file at `path` to a
    single configuration value, or throw. -/
def selectConfig (contextName path : String) (tmp : JValue) : Except ConfigError JValue :=
  match tmp with
  | .arr entries =>
    match findFirstIdx? (configFinder contextName) entries with
    | none =>
      match firstFactoryResult contextName entries with
      | some candidate =>
        -- after the loop, `tmp` is the accepted candidate; the
        -- `Array.isArray(tmp)` recheck still throws when it is an array
        if candidate.isArr then .error (.notFoundInArray contextName path)
        else .ok candidate
      | none => .error (.notFoundInArray contextName path)
    | some firstIdx =>
      let lastIdx := (findLastIdx? (configFinder contextName) entries).getD firstIdx
      if lastIdx ≠ firstIdx then .error (.notUnique contextName path firstIdx lastIdx)
      else .ok (entries.getD firstIdx .null)
  | .func f =>
    let produced := f contextName
    if isValidConfigFactoryResult contextName produced then .ok produced
    else .error (.factoryMismatch contextName path)
  | _ =>
    if configFinder contextName tmp then .ok tmp
    else .error (.objectMismatch contextName path)

/-- `esmConfigOptions` (source line 160): the ESM-compatibility flag object
    injected when the caller's package is of the modern module kind. -/
def esmOptions (esm : Bool) : JValue :=
  if esm then .obj [("entityGenerator", .obj [("esmImport", .bool true)])] else .obj []

/-- The modern-signature path of `getConfiguration` (source lines 98-163)
    after the file lookup: `fileResult` is the outcome of `getConfigFile`,
    `options` the caller-supplied options, `env` the environment-decoded
    options, and `esm` the detected module kind. Returns the mapping handed
    to the `Configuration` constructor, or the thrown error. -/
def getConfiguration (contextName : String) (paths : List String)
    (options env : JValue) (fileResult : Option (String × JValue)) (esm : Bool) :
    Except ConfigError JValue :=
  match fileResult with
  | none =>
    if hasObjectKeys env then
      .ok (mergeConfig (.obj [("contextName", .str contextName)]) [options, env])
    else
      .error (.notFound paths)
  | some (path, tmp) => do
    let cfg ← selectConfig contextName path tmp
    .ok (mergeConfig (.obj []) [esmOptions esm, cfg, options, env])

/-- A snapshot of `process.env`. -/
abbrev EnvSnapshot := String → Option String

/-- `getConfigFile` (source lines 165-178), instrumented: besides its
    result it returns the list of paths handed to the loader's `import`
    (`norm` models the `Utils.absolutePath`/`Utils.normalizePath`
    composition, `fileExists` the `pathExistsSync` probe and `importFile`
    the external loader). -/
def getConfigFileTrace (paths : List String) (norm : String → String)
    (fileExists : String → Bool) (importFile : String → JValue) :
    Option (String × JValue) × List String :=
  match paths with
  | [] => (none, [])
  | p :: rest =>
    let q := norm p
    if fileExists q then (some (q, importFile q), [q])
    else getConfigFileTrace rest norm fileExists importFile

/-- `getConfigFile`: first existing (normalized) path paired with its import
    result, or an empty result. -/
def getConfigFile (paths : List String) (norm : String → String)
    (fileExists : String → Bool) (importFile : String → JValue) :
    Option (String × JValue) :=
  (getConfigFileTrace paths norm fileExists importFile).1

/-- The `Settings` interface (source lines 483-548), restricted to the
    fields `getSettings`/`getConfigPaths` consult (`preferTs` is declared
    but never read by this subsystem). -/
structure Settings where
  tsConfigPath : Option String := none
  verbose : Option Bool := none
  useTsNode : Option Bool := none
  alwaysAllowTs : Option Bool := none
  loader : Option LoaderOption := none
  configPaths : Option (List String) := none
deriving DecidableEq, Repr

/-- `getSettings` (source lines 200-216): manifest-declared settings
    overridden by the dedicated environment variables; a `.ts`-ending
    `MIKRO_ORM_CLI_CONFIG` forces `useTsNode` on. -/
def getSettings (pkgSettings : Settings) (envv : EnvSnapshot) : Settings :=
  let s := pkgSettings
  let s := { s with tsConfigPath := ((envv "MIKRO_ORM_CLI_TS_CONFIG_PATH").orElse fun _ => s.tsConfigPath) }
  let s := { s with verbose :=
    (match envv "MIKRO_ORM_CLI_VERBOSE" with
    | some v => some (toBoolean v)
    | none => s.verbose) }
  let s := { s with useTsNode :=
    (match envv "MIKRO_ORM_CLI_USE_TS_NODE" with
    | some v => some (toBoolean v)
    | none => s.useTsNode) }
  let s := { s with alwaysAllowTs :=
    (match envv "MIKRO_ORM_CLI_ALWAYS_ALLOW_TS" with
    | some v => some (toBoolean v)
    | none => s.alwaysAllowTs) }
  let s := { s with loader :=
    (match envv "MIKRO_ORM_CLI_LOADER" with
    | some v => some (loaderOptionFromEnv v)
    | none => s.loader) }
  match envv "MIKRO_ORM_CLI_CONFIG" with
  | some c => if strEndsWith c ".ts" then { s with useTsNode := some true } else s
  | none => s

/-- Helper of `dedupFirst`: drop the elements already seen, keeping first
    occurrences of the rest. -/
def dedupFirstAux (seen : List String) : List String → List String
  | [] => []
  | x :: xs =>
    if seen.contains x then dedupFirstAux seen xs
    else x :: dedupFirstAux (x :: seen) xs

/-- `Utils.unique` keeping first occurrences. Modelled from the spec:
    `Utils.unique` lives in `Utils.ts` (outside the provided sources); per
    the spec, duplicate paths are removed keeping the first occurrence. -/
def dedupFirst (l : List String) : List String :=
  dedupFirstAux [] l

/-- The filesystem and runtime probes consulted by `getConfigPaths`:
    existence of the `dist` and `build` output directories
    (`pathExistsSync`), `Utils.detectTsNode()`, and truthiness of
    `process.versions.bun`. -/
structure FsEnv where
  distDirExists : Bool := false
  buildDirExists : Bool := false
  tsNodeDetected : Bool := false
  bun : Bool := false
deriving DecidableEq, Repr

/-- `getConfigPaths` (source lines 228-253), with the `MIKRO_ORM_CLI_CONFIG`
    environment value and the resolved settings passed explicitly. -/
def getConfigPaths (cliConfig : Option String) (settings : Settings) (fs : FsEnv) :
    List String :=
  let paths : List String := (match cliConfig with | some p => [p] | none => []) ++
    settings.configPaths.getD []
  let alwaysAllowTs : Bool := settings.alwaysAllowTs.getD fs.bun
  let paths := paths ++
    (if settings.useTsNode != some false || alwaysAllowTs then
      ["./src/mikro-orm.config.ts", "./mikro-orm.config.ts"]
    else [])
  let dir := if fs.distDirExists then "dist" else if fs.buildDirExists then "build" else "src"
  let paths := paths ++ ["./" ++ dir ++ "/mikro-orm.config.js", "./mikro-orm.config.js"]
  (dedupFirst paths).filter fun p => strEndsWith p ".js" || fs.tsNodeDetected || alwaysAllowTs

/-- `getConfigPaths` as called in the source: it derives the settings from
    the manifest and the environment itself. -/
def getConfigPathsEnv (pkgSettings : Settings) (envv : EnvSnapshot) (fs : FsEnv) :
    List String :=
  getConfigPaths (envv "MIKRO_ORM_CLI_CONFIG") (getSettings pkgSettings envv) fs

/-- The `PLATFORMS` driver lookup table (source lines 318-327):
    short name, class name, module name. -/
def PLATFORMS : List (String × String × String) :=
  [("mongo", "MongoDriver", "@mikro-orm/mongodb"),
   ("mysql", "MySqlDriver", "@mikro-orm/mysql"),
   ("mssql", "MsSqlDriver", "@mikro-orm/mssql"),
   ("mariadb", "MariaDbDriver", "@mikro-orm/mariadb"),
   ("postgresql", "PostgreSqlDriver", "@mikro-orm/postgresql"),
   ("sqlite", "SqliteDriver", "@mikro-orm/sqlite"),
   ("better-sqlite", "BetterSqliteDriver", "@mikro-orm/better-sqlite"),
   ("libsql", "LibSqlDriver", "@mikro-orm/libsql")]

/-- Modelled from the spec: the driver mapper
    `Utils.requireFrom(PLATFORMS[v].module)[PLATFORMS[v].className]`
    (`Utils.requireFrom` is outside the provided sources) resolves a short
    driver name through the fixed table; the imported class is represented
    by an object recording its class and module names, and an unknown short
    name is a lookup failure. -/
def resolveDriver (v : String) : Option JValue :=
  (PLATFORMS.find? fun p => p.1 == v).map fun p =>
    .obj [("driverClass", .str p.2.1), ("driverModule", .str p.2.2)]

/-- The `array` mapper: `v.split(',').map(vv => vv.trim())`. -/
def arrayMapper (v : String) : JValue :=
  .arr ((v.splitOn ",").map fun s => .str s.trim)

/-- The `num` mapper `+v`; the model restricts numeric environment values
    to integer-valued strings (others are out of the claims' scope). -/
def numMapper (v : String) : JValue :=
  .num (v.toInt?.getD 0)

/-- Mapper composing the boolean coercion. -/
def boolMapper (v : String) : JValue :=
  .bool (toBoolean v)

/-- `read(o, envKey, key, mapper)` (source lines 332-339): copy the decoded
    variable into the options mapping if present, else leave it untouched. -/
def readEnv (envv : EnvSnapshot) (o : Fields) (envKey key : String)
    (mapper : String → JValue) : Fields :=
  match envv envKey with
  | none => o
  | some v => assign o key (mapper v)

/-- The `ret.<ns> = {}; read(...); cleanup(ret, ns)` pattern (source lines
    340, 371-405): a sub-namespace key survives only if it received fields. -/
def addNamespaceFields (o : Fields) (key : String) (sub : Fields) : Fields :=
  if sub.isEmpty then o else assign o key (.obj sub)

/-- `loadEnvironmentVars` (source lines 314-408) over an environment
    snapshot. Fails only when `MIKRO_ORM_TYPE` names an unknown platform
    (the lookup error of the driver mapper). -/
def loadEnvironmentVars (envv : EnvSnapshot) : Except String JValue := do
  let ret : Fields := []
  let ret := readEnv envv ret "MIKRO_ORM_BASE_DIR" "baseDir" .str
  let ret ← match envv "MIKRO_ORM_TYPE" with
    | none => pure ret
    | some v =>
      match resolveDriver v with
      | some d => pure (assign ret "driver" d)
      | none => throw ("unknown driver type " ++ v)
  let ret := readEnv envv ret "MIKRO_ORM_ENTITIES" "entities" arrayMapper
  let ret := readEnv envv ret "MIKRO_ORM_ENTITIES_TS" "entitiesTs" arrayMapper
  let ret := readEnv envv ret "MIKRO_ORM_CLIENT_URL" "clientUrl" .str
  let ret := readEnv envv ret "MIKRO_ORM_HOST" "host" .str
  let ret := readEnv envv ret "MIKRO_ORM_PORT" "port" numMapper
  let ret := readEnv envv ret "MIKRO_ORM_USER" "user" .str
  let ret := readEnv envv ret "MIKRO_ORM_PASSWORD" "password" .str
  let ret := readEnv envv ret "MIKRO_ORM_DB_NAME" "dbName" .str
  let ret := readEnv envv ret "MIKRO_ORM_SCHEMA" "schema" .str
  let ret := readEnv envv ret "MIKRO_ORM_LOAD_STRATEGY" "loadStrategy" .str
  let ret := readEnv envv ret "MIKRO_ORM_BATCH_SIZE" "batchSize" numMapper
  let ret := readEnv envv ret "MIKRO_ORM_USE_BATCH_INSERTS" "useBatchInserts" boolMapper
  let ret := readEnv envv ret "MIKRO_ORM_USE_BATCH_UPDATES" "useBatchUpdates" boolMapper
  let ret := readEnv envv ret "MIKRO_ORM_STRICT" "strict" boolMapper
  let ret := readEnv envv ret "MIKRO_ORM_VALIDATE" "validate" boolMapper
  let ret := readEnv envv ret "MIKRO_ORM_ALLOW_GLOBAL_CONTEXT" "allowGlobalContext" boolMapper
  let ret := readEnv envv ret "MIKRO_ORM_AUTO_JOIN_ONE_TO_ONE_OWNER" "autoJoinOneToOneOwner" boolMapper
  let ret := readEnv envv ret "MIKRO_ORM_POPULATE_AFTER_FLUSH" "populateAfterFlush" boolMapper
  let ret := readEnv envv ret "MIKRO_ORM_FORCE_ENTITY_CONSTRUCTOR" "forceEntityConstructor" boolMapper
  let ret := readEnv envv ret "MIKRO_ORM_FORCE_UNDEFINED" "forceUndefined" boolMapper
  let ret := readEnv envv ret "MIKRO_ORM_FORCE_UTC_TIMEZONE" "forceUtcTimezone" boolMapper
  let ret := readEnv envv ret "MIKRO_ORM_TIMEZONE" "timezone" .str
  let ret := readEnv envv ret "MIKRO_ORM_ENSURE_INDEXES" "ensureIndexes" boolMapper
  let ret := readEnv envv ret "MIKRO_ORM_IMPLICIT_TRANSACTIONS" "implicitTransactions" boolMapper
  let ret := readEnv envv ret "MIKRO_ORM_DEBUG" "debug" boolMapper
  let ret := readEnv envv ret "MIKRO_ORM_COLORS" "colors" boolMapper
  let discovery : Fields := []
  let discovery := readEnv envv discovery "MIKRO_ORM_DISCOVERY_WARN_WHEN_NO_ENTITIES" "warnWhenNoEntities" boolMapper
  let discovery := readEnv envv discovery "MIKRO_ORM_DISCOVERY_REQUIRE_ENTITIES_ARRAY" "requireEntitiesArray" boolMapper
  let discovery := readEnv envv discovery "MIKRO_ORM_DISCOVERY_ALWAYS_ANALYSE_PROPERTIES" "alwaysAnalyseProperties" boolMapper
  let discovery := readEnv envv discovery "MIKRO_ORM_DISCOVERY_DISABLE_DYNAMIC_FILE_ACCESS" "disableDynamicFileAccess" boolMapper
  let ret := addNamespaceFields ret "discovery" discovery
  let migrations : Fields := []
  let migrations := readEnv envv migrations "MIKRO_ORM_MIGRATIONS_TABLE_NAME" "tableName" .str
  let migrations := readEnv envv migrations "MIKRO_ORM_MIGRATIONS_PATH" "path" .str
  let migrations := readEnv envv migrations "MIKRO_ORM_MIGRATIONS_PATH_TS" "pathTs" .str
  let migrations := readEnv envv migrations "MIKRO_ORM_MIGRATIONS_GLOB" "glob" .str
  let migrations := readEnv envv migrations "MIKRO_ORM_MIGRATIONS_TRANSACTIONAL" "transactional" boolMapper
  let migrations := readEnv envv migrations "MIKRO_ORM_MIGRATIONS_DISABLE_FOREIGN_KEYS" "disableForeignKeys" boolMapper
  let migrations := readEnv envv migrations "MIKRO_ORM_MIGRATIONS_ALL_OR_NOTHING" "allOrNothing" boolMapper
  let migrations := readEnv envv migrations "MIKRO_ORM_MIGRATIONS_DROP_TABLES" "dropTables" boolMapper
  let migrations := readEnv envv migrations "MIKRO_ORM_MIGRATIONS_SAFE" "safe" boolMapper
  let migrations := readEnv envv migrations "MIKRO_ORM_MIGRATIONS_SILENT" "silent" boolMapper
  let migrations := readEnv envv migrations "MIKRO_ORM_MIGRATIONS_EMIT" "emit" .str
  let migrations := readEnv envv migrations "MIKRO_ORM_MIGRATIONS_SNAPSHOT" "snapshot" boolMapper
  let migrations := readEnv envv migrations "MIKRO_ORM_MIGRATIONS_SNAPSHOT_NAME" "snapshotName" .str
  let ret := addNamespaceFields ret "migrations" migrations
  let schemaGenerator : Fields := []
  let schemaGenerator := readEnv envv schemaGenerator "MIKRO_ORM_SCHEMA_GENERATOR_DISABLE_FOREIGN_KEYS" "disableForeignKeys" boolMapper
  let schemaGenerator := readEnv envv schemaGenerator "MIKRO_ORM_SCHEMA_GENERATOR_CREATE_FOREIGN_KEY_CONSTRAINTS" "createForeignKeyConstraints" boolMapper
  let ret := addNamespaceFields ret "schemaGenerator" schemaGenerator
  let seeder : Fields := []
  let seeder := readEnv envv seeder "MIKRO_ORM_SEEDER_PATH" "path" .str
  let seeder := readEnv envv seeder "MIKRO_ORM_SEEDER_PATH_TS" "pathTs" .str
  let seeder := readEnv envv seeder "MIKRO_ORM_SEEDER_GLOB" "glob" .str
  let seeder := readEnv envv seeder "MIKRO_ORM_SEEDER_EMIT" "emit" .str
  let seeder := readEnv envv seeder "MIKRO_ORM_SEEDER_DEFAULT_SEEDER" "defaultSeeder" .str
  let ret := addNamespaceFields ret "seeder" seeder
  return .obj ret

/-- The exception set of `checkPackageVersion` (source line 459). -/
def versionCheckExceptions : List String :=
  ["nestjs", "sql-highlighter", "mongo-highlighter"]

/-- `getORMPackages` (source lines 410-416): the union (insertion-ordered,
    duplicate-free, as a JS `Set`) of dependency and devDependency names. -/
def getORMPackages (dependencies devDependencies : List String) : List String :=
  dedupFirst (dependencies ++ devDependencies)

/-- The companion-package filter of `checkPackageVersion` (source line 460). -/
def isCompanionPackage (d : String) : Bool :=
  strStartsWith d "@mikro-orm/" && d != "@mikro-orm/core" &&
    !(versionCheckExceptions.contains (strDrop d "@mikro-orm/".data.length))

/-- The mismatch loop of `checkPackageVersion` (source lines 462-473):
    first package in order whose version is determinable and differs from
    the core version; undeterminable versions are skipped. -/
def firstMismatch (coreVersion : String) (pkgVersion : String → Option String) :
    List String → Option (String × String)
  | [] => none
  | p :: rest =>
    match pkgVersion p with
    | some v =>
      if v != coreVersion then some (p, v)
      else firstMismatch coreVersion pkgVersion rest
    | none => firstMismatch coreVersion pkgVersion rest

/-- `checkPackageVersion` (source lines 451-476): `bypass` models
    truthiness of `MIKRO_ORM_ALLOW_VERSION_MISMATCH` and `pkgVersion`
    models `getORMPackageVersion` (whose failures yield `undefined`). -/
def checkPackageVersion (coreVersion : String) (bypass : Bool)
    (dependencies devDependencies : List String)
    (pkgVersion : String → Option String) : Except ConfigError String :=
  if bypass then .ok coreVersion
  else
    let ormPackages :=
      (getORMPackages dependencies devDependencies).filter isCompanionPackage
    match firstMismatch coreVersion pkgVersion ormPackages with
    | some (p, v) => .error (.versionMismatch p v coreVersion)
    | none => .ok coreVersion

/-- Property access on a value: fields of a plain object, nothing otherwise. -/
def JValue.prop : JValue → String → Option JValue
  | .obj fs, k => lookupKey fs k
  | _, _ => none

/-- Whether a value is a plain object (a mapping in the merge's sense). -/
def JValue.isPlainObj : JValue → Bool
  | .obj _ => true
  | _ => false

/-- The candidate path list exactly as the spec enumerates it, before
    deduplication and the loadability filter: environment override, manifest
    paths, TS source candidates (when TS is not explicitly disabled or
    force-allow holds), compiled candidate under the detected output
    directory, root compiled candidate. Stated for comparison against
    `getConfigPaths`. -/
def specConfigPathCandidates (cliConfig : Option String) (settings : Settings)
    (fs : FsEnv) : List String :=
  cliConfig.toList ++ settings.configPaths.getD [] ++
    (if settings.useTsNode != some false || settings.alwaysAllowTs.getD fs.bun then
      ["./src/mikro-orm.config.ts", "./mikro-orm.config.ts"]
    else []) ++
    ["./" ++ (if fs.distDirExists then "dist"
        else if fs.buildDirExists then "build" else "src") ++ "/mikro-orm.config.js",
      "./mikro-orm.config.js"]

/-! ### Association-list and merge lemmas -/

theorem lookupKey_cons (k0 : String) (w : JValue) (rest : Fields) (key : String) :
    lookupKey ((k0, w) :: rest) key = if k0 = key then some w else lookupKey rest key := by
  simp [lookupKey, beq_iff_eq]

theorem lookupKey_assign (o : Fields) (k : String) (v : JValue) (k' : String) :
    lookupKey (assign o k v) k' = if k' = k then some v else lookupKey o k' := by
  induction o with
  | nil =>
    have ha : assign ([] : Fields) k v = [(k, v)] := rfl
    rw [ha, lookupKey_cons]
    by_cases h : k = k'
    · rw [if_pos h, if_pos h.symm]
    · rw [if_neg h, if_neg (fun hh => h hh.symm)]
  | cons hd tl ih =>
    obtain ⟨k0, w⟩ := hd
    by_cases h0 : k0 = k
    · subst h0
      have ha : assign ((k0, w) :: tl) k0 v = (k0, v) :: tl := by simp [assign]
      rw [ha, lookupKey_cons, lookupKey_cons]
      by_cases h1 : k0 = k'
      · rw [if_pos h1, if_pos h1.symm]
      · rw [if_neg h1, if_neg h1, if_neg (fun hh => h1 hh.symm)]
    · have ha : assign ((k0, w) :: tl) k v = (k0, w) :: assign tl k v := by
        simp [assign, beq_iff_eq, h0]
      rw [ha, lookupKey_cons, lookupKey_cons, ih]
      by_cases h1 : k0 = k'
      · rw [if_pos h1, if_pos h1, if_neg (fun hh => h0 (h1.trans hh))]
      · rw [if_neg h1, if_neg h1]

theorem lookupKey_eq_none_of_not_mem (l : Fields) (k : String)
    (h : k ∉ l.map Prod.fst) : lookupKey l k = none := by
  induction l with
  | nil => rfl
  | cons hd tl ih =>
    obtain ⟨k0, w⟩ := hd
    simp only [List.map_cons, List.mem_cons, not_or] at h
    rw [lookupKey_cons, if_neg (fun hh => h.1 hh.symm), ih h.2]

theorem mergeTwo_obj_obj (fa fb : Fields) :
    mergeTwo (.obj fa) (.obj fb) = .obj (mergeInto fa fb) := by
  simp [mergeTwo]

theorem mergeInto_cons (fa : Fields) (k : String) (v : JValue) (rest : Fields) :
    mergeInto fa ((k, v) :: rest) =
      mergeInto
        (assign fa k
          (match lookupKey fa k with
            | some old => mergeTwo old v
            | none => v))
        rest := by
  rw [mergeInto]

theorem mergeInto_nil (fa : Fields) : mergeInto fa [] = fa := by
  rw [mergeInto]

/-- Key-wise characterization of the object merge: a key found in the
    higher-precedence source wins, recursively merged when the target also
    holds it; a key absent there falls back to the target. -/
theorem lookupKey_mergeInto (fb : Fields) (fa : Fields) (k : String)
    (h : (fb.map Prod.fst).Nodup) :
    lookupKey (mergeInto fa fb) k =
      (match lookupKey fb k with
        | none => lookupKey fa k
        | some vb =>
          match lookupKey fa k with
          | none => some vb
          | some va => some (mergeTwo va vb)) := by
  induction fb generalizing fa with
  | nil => simp [mergeInto_nil, lookupKey]
  | cons hd rest ih =>
    obtain ⟨kb, vb⟩ := hd
    simp only [List.map_cons, List.nodup_cons] at h
    rw [mergeInto_cons, ih _ h.2]
    by_cases hk : k = kb
    · subst hk
      rw [lookupKey_eq_none_of_not_mem rest k h.1]
      rw [lookupKey_cons, if_pos rfl, lookupKey_assign, if_pos rfl]
      cases hfa : lookupKey fa k <;> simp
    · rw [lookupKey_cons, if_neg (fun hh => hk hh.symm), lookupKey_assign, if_neg hk]

/-- A merge in which either side is not a plain object replaces wholesale. -/
theorem mergeTwo_replaces (a b : JValue)
    (h : a.isPlainObj = false ∨ b.isPlainObj = false) : mergeTwo a b = b := by
  cases a <;> cases b <;> simp_all [mergeTwo, JValue.isPlainObj]

/-! ### Claim theorems -/

/-- **C1.** For every resolved file configuration, caller-supplied options and
environment-decoded options, `getConfiguration` returns the deep merge, in
lowest-to-highest precedence, of the ESM-compatibility flag object, the file
config, the caller options and the environment options: for any key present
in several sources the higher-precedence source's value overrides the
lower's, nested plain mappings merge key-wise (recursively), and arrays and
scalar values are replaced wholesale by the higher-precedence source. -/
theorem getConfiguration_merges_in_precedence_order
    (contextName : String) (paths : List String) (options env : JValue)
    (path : String) (tmp cfg : JValue) (esm : Bool)
    (hsel : selectConfig contextName path tmp = .ok cfg) :
    getConfiguration contextName paths options env (some (path, tmp)) esm
        = .ok (mergeConfig (.obj []) [esmOptions esm, cfg, options, env])
    ∧ (∀ fa fb k, (fb.map Prod.fst).Nodup →
        (mergeTwo (.obj fa) (.obj fb)).prop k =
          (match lookupKey fb k with
            | none => lookupKey fa k
            | some hi =>
              match lookupKey fa k with
              | none => some hi
              | some low => some (mergeTwo low hi)))
    ∧ (∀ a b : JValue, a.isPlainObj = false ∨ b.isPlainObj = false →
        mergeTwo a b = b) := by
  refine ⟨?_, ?_, mergeTwo_replaces⟩
  · simp [getConfiguration, hsel, Bind.bind, Except.bind]
  · intro fa fb k hnd
    rw [mergeTwo_obj_obj]
    exact lookupKey_mergeInto fb fa k hnd

/-- Witness for C1: an ESM caller with a file config, caller options and
environment options; the environment's `debug` overrides the caller's, the
caller's nested `entityGenerator` mapping merges key-wise with the injected
ESM flag, and the file's `dbName` survives. -/
theorem getConfiguration_merges_in_precedence_order_witness :
    getConfiguration "default" ["./mikro-orm.config.js"]
        (.obj [("debug", .bool true), ("entityGenerator", .obj [("scope", .str "o")])])
        (.obj [("debug", .bool false)])
        (some ("/app/mikro-orm.config.js", .obj [("dbName", .str "d")])) true
      = .ok (.obj [("entityGenerator", .obj [("esmImport", .bool true), ("scope", .str "o")]),
                   ("dbName", .str "d"), ("debug", .bool false)]) := by
  rw [(getConfiguration_merges_in_precedence_order "default" ["./mikro-orm.config.js"]
      (.obj [("debug", .bool true), ("entityGenerator", .obj [("scope", .str "o")])])
      (.obj [("debug", .bool false)])
      "/app/mikro-orm.config.js" (.obj [("dbName", .str "d")])
      (.obj [("dbName", .str "d")]) true rfl).1]
  simp [mergeConfig, esmOptions, mergeTwo, mergeInto, assign, lookupKey]

/-- **C3.** When no candidate config path exists: with non-empty
environment-decoded options, `getConfiguration` succeeds with the merge of
`{contextName}`, the caller-supplied options and the environment-decoded
options (no file source); with empty environment-decoded options it fails
with the config-file-not-found error whose message lists exactly the
candidate paths tried. -/
theorem getConfiguration_no_file_branch
    (contextName : String) (paths : List String) (options : JValue)
    (envFields : Fields) (esm : Bool) :
    (envFields ≠ [] →
      getConfiguration contextName paths options (.obj envFields) none esm
        = .ok (mergeConfig (.obj [("contextName", .str contextName)])
            [options, .obj envFields]))
    ∧ (envFields = [] →
      getConfiguration contextName paths options (.obj envFields) none esm
        = .error (.notFound paths))
    ∧ errorMessage (.notFound paths)
        = "MikroORM config file not found in [\x27" ++
            String.intercalate "\x27, \x27" paths ++ "\x27]" := by
  refine ⟨?_, ?_, rfl⟩
  · intro h
    simp [getConfiguration, hasObjectKeys, List.isEmpty_iff, h]
  · intro h
    subst h
    simp [getConfiguration, hasObjectKeys]

/-- Witness for C3: both branches at concrete inputs, plus the rendered
not-found message. -/
theorem getConfiguration_no_file_branch_witness :
    getConfiguration "ctx" ["a.js", "b.js"] (.obj [("x", .num 1)])
        (.obj [("y", .num 2)]) none false
      = .ok (.obj [("contextName", .str "ctx"), ("x", .num 1), ("y", .num 2)])
    ∧ getConfiguration "ctx" ["a.js", "b.js"] (.obj [("x", .num 1)])
        (.obj []) none false
      = .error (.notFound ["a.js", "b.js"])
    ∧ errorMessage (.notFound ["a.js", "b.js"])
      = "MikroORM config file not found in [\x27a.js\x27, \x27b.js\x27]" := by
  refine ⟨?_, ?_, ?_⟩
  · rw [(getConfiguration_no_file_branch "ctx" ["a.js", "b.js"] (.obj [("x", .num 1)])
        [("y", .num 2)] false).1 (by simp)]
    simp [mergeConfig, mergeTwo, mergeInto, assign, lookupKey]
  · exact (getConfiguration_no_file_branch "ctx" ["a.js", "b.js"] (.obj [("x", .num 1)])
        [] false).2.1 rfl
  · rfl

/-- Counterexample to C4: boolean environment decoding is not
case-insensitive. `toBoolean` compares the raw value against the lowercase
truthy list without lowercasing it first, so the uppercase truthy casing
`"TRUE"` decodes to `false` — directly, through `MIKRO_ORM_DEBUG` in
`loadEnvironmentVars`, and through `MIKRO_ORM_CLI_VERBOSE` in
`getSettings`. -/
theorem toBoolean_uppercase_truthy_decodes_false :
    toBoolean "TRUE" = false
    ∧ loadEnvironmentVars (fun k => if k == "MIKRO_ORM_DEBUG" then some "TRUE" else none)
        = .ok (.obj [("debug", .bool false)])
    ∧ (getSettings {} (fun k => if k == "MIKRO_ORM_CLI_VERBOSE" then some "TRUE" else none)).verbose
        = some false := by
  exact ⟨rfl, rfl, rfl⟩

/-- **C4 (amended).** Boolean environment decoding is total but
case-sensitive: exactly the five lowercase truthy strings decode to `true`,
and every other string — every falsy string and every non-lowercase casing
included — decodes to `false`; the decoder is wired unchanged into
`loadEnvironmentVars` (e.g. `MIKRO_ORM_DEBUG`) and `getSettings`
(e.g. `MIKRO_ORM_CLI_VERBOSE`). -/
theorem toBoolean_total_case_sensitive (v : String) :
    (v ∈ ["true", "t", "1", "yes", "y"] → toBoolean v = true)
    ∧ (v ∉ ["true", "t", "1", "yes", "y"] → toBoolean v = false)
    ∧ (∀ w ∈ (["false", "f", "0", "no", "n", ""] : List String), toBoolean w = false)
    ∧ loadEnvironmentVars (fun k => if k == "MIKRO_ORM_DEBUG" then some v else none)
        = .ok (.obj [("debug", .bool (toBoolean v))])
    ∧ (getSettings {} (fun k => if k == "MIKRO_ORM_CLI_VERBOSE" then some v else none)).verbose
        = some (toBoolean v) := by
  refine ⟨?_, ?_, ?_, rfl, rfl⟩
  · intro h
    simp only [toBoolean, truthyStrings]
    exact List.elem_iff.mpr h
  · intro h
    simp only [toBoolean, truthyStrings]
    exact Bool.eq_false_iff.mpr fun hc => h (List.elem_iff.mp hc)
  · intro w hw
    fin_cases hw <;> rfl

/-- Witness for the amended C4 at concrete strings. -/
theorem toBoolean_total_case_sensitive_witness :
    toBoolean "y" = true ∧ toBoolean "Y" = false ∧ toBoolean "" = false :=
  ⟨(toBoolean_total_case_sensitive "y").1 (by decide),
   (toBoolean_total_case_sensitive "Y").2.1 (by decide),
   (toBoolean_total_case_sensitive "").2.2.1 "" (by decide)⟩

/-- **C9.** The loader-option environment decoder is total and
case-insensitive on the boolean sets: every casing of a falsy string maps
to `false` (loader disabled), every casing of a truthy string maps to
`auto`, and any other string passes through unchanged as a literal loader
name; it never raises. -/
theorem loaderOptionFromEnv_decoding (v : String) :
    (jsToLowerCase v ∈ ["false", "f", "0", "no", "n", ""] →
      loaderOptionFromEnv v = .off)
    ∧ (jsToLowerCase v ∈ ["true", "t", "1", "yes", "y"] →
      loaderOptionFromEnv v = .name "auto")
    ∧ (jsToLowerCase v ∉ ["false", "f", "0", "no", "n", ""] →
      jsToLowerCase v ∉ ["true", "t", "1", "yes", "y"] →
      loaderOptionFromEnv v = .name v) := by
  refine ⟨?_, ?_, ?_⟩
  · intro h
    simp only [loaderOptionFromEnv, falsyStrings]
    rw [if_pos (List.elem_iff.mpr h)]
  · intro h
    simp only [List.mem_cons, List.not_mem_nil, or_false] at h
    simp only [loaderOptionFromEnv, falsyStrings, truthyStrings]
    rcases h with h | h | h | h | h <;> rw [h] <;> rfl
  · intro h1 h2
    simp only [loaderOptionFromEnv, falsyStrings, truthyStrings]
    rw [if_neg fun hc => h1 (List.elem_iff.mp hc),
      if_neg fun hc => h2 (List.elem_iff.mp hc)]

/-- Witness for C9 at concrete strings of each kind. -/
theorem loaderOptionFromEnv_decoding_witness :
    loaderOptionFromEnv "TRUE" = .name "auto"
    ∧ loaderOptionFromEnv "No" = .off
    ∧ loaderOptionFromEnv "jiti" = .name "jiti" :=
  ⟨(loaderOptionFromEnv_decoding "TRUE").2.1 (by decide),
   (loaderOptionFromEnv_decoding "No").1 (by decide),
   (loaderOptionFromEnv_decoding "jiti").2.2 (by decide) (by decide)⟩

theorem getConfigFileTrace_none_iff (paths : List String) (norm : String → String)
    (fileExists : String → Bool) (importFile : String → JValue) :
    (getConfigFileTrace paths norm fileExists importFile).1 = none ↔
      ∀ p ∈ paths, fileExists (norm p) = false := by
  induction paths with
  | nil => simp [getConfigFileTrace]
  | cons p rest ih =>
    by_cases hp : fileExists (norm p) <;>
      simp [getConfigFileTrace, hp, ih]

theorem getConfigFileTrace_first (pre : List String) (p : String) (post : List String)
    (norm : String → String) (fileExists : String → Bool) (importFile : String → JValue)
    (hpre : ∀ r ∈ pre, fileExists (norm r) = false)
    (hp : fileExists (norm p) = true) :
    getConfigFileTrace (pre ++ p :: post) norm fileExists importFile
      = (some (norm p, importFile (norm p)), [norm p]) := by
  induction pre with
  | nil => simp [getConfigFileTrace, hp]
  | cons r rest ih =>
    have hr : fileExists (norm r) = false := hpre r (List.mem_cons_self r rest)
    simp only [List.cons_append, getConfigFileTrace, hr, Bool.false_eq_true, if_neg,
      not_false_eq_true]
    exact ih fun x hx => hpre x (List.mem_cons_of_mem r hx)

theorem getConfigFileTrace_only_existing_imported (paths : List String)
    (norm : String → String) (fileExists : String → Bool) (importFile : String → JValue) :
    ∀ q ∈ (getConfigFileTrace paths norm fileExists importFile).2, fileExists q = true := by
  induction paths with
  | nil => simp [getConfigFileTrace]
  | cons p rest ih =>
    by_cases hp : fileExists (norm p)
    · simp [getConfigFileTrace, hp]
    · simp only [getConfigFileTrace, hp, Bool.false_eq_true, if_neg, not_false_eq_true]
      exact ih

/-- **C7.** `getConfigFile` probes existence of each (normalized) path in the
given order and returns the first existing one paired with the loader's
result of importing it; it returns an empty result when no path exists; and the
loader's `import` is only ever invoked on paths whose existence probe
succeeded (the instrumented trace records exactly the imported paths). -/
theorem getConfigFile_first_existing
    (paths : List String) (norm : String → String)
    (fileExists : String → Bool) (importFile : String → JValue) :
    (getConfigFile paths norm fileExists importFile = none ↔
      ∀ p ∈ paths, fileExists (norm p) = false)
    ∧ (∀ pre p post, paths = pre ++ p :: post →
        (∀ r ∈ pre, fileExists (norm r) = false) →
        fileExists (norm p) = true →
        getConfigFile paths norm fileExists importFile
          = some (norm p, importFile (norm p)))
    ∧ (∀ q ∈ (getConfigFileTrace paths norm fileExists importFile).2,
        fileExists q = true) := by
  refine ⟨getConfigFileTrace_none_iff paths norm fileExists importFile, ?_,
    getConfigFileTrace_only_existing_imported paths norm fileExists importFile⟩
  intro pre p post hsplit hpre hp
  rw [getConfigFile, hsplit, getConfigFileTrace_first pre p post norm fileExists importFile hpre hp]

/-- Witness for C7: the second of three paths exists and is the one that is
loaded and returned; with no existing path the result is empty. -/
theorem getConfigFile_first_existing_witness :
    getConfigFile ["a.js", "b.js", "c.js"] id (fun p => p == "b.js") (fun p => .str p)
      = some ("b.js", .str "b.js")
    ∧ getConfigFile ["a.js"] id (fun _ => false) (fun p => .str p) = none := by
  constructor
  · exact (getConfigFile_first_existing ["a.js", "b.js", "c.js"] id
      (fun p => p == "b.js") (fun p => .str p)).2.1 ["a.js"] "b.js" ["c.js"] rfl
      (by decide) (by decide)
  · exact (getConfigFile_first_existing ["a.js"] id
      (fun _ => false) (fun p => .str p)).1.mpr (by simp)

theorem mem_dedupFirstAux (a : String) (l : List String) :
    ∀ seen, a ∈ dedupFirstAux seen l ↔ a ∈ l ∧ a ∉ seen := by
  induction l with
  | nil => intro seen; simp [dedupFirstAux]
  | cons x xs ih =>
    intro seen
    by_cases hc : seen.contains x = true
    · have hx : x ∈ seen := List.elem_iff.mp hc
      simp only [dedupFirstAux, hc, if_pos, ih seen, List.mem_cons]
      constructor
      · rintro ⟨h1, h2⟩; exact ⟨Or.inr h1, h2⟩
      · rintro ⟨h1 | h1, h2⟩
        · exact absurd (h1 ▸ hx) h2
        · exact ⟨h1, h2⟩
    · have hx : x ∉ seen := fun hm => hc (List.elem_iff.mpr hm)
      simp only [dedupFirstAux, hc, Bool.false_eq_true, if_neg, not_false_eq_true,
        List.mem_cons, ih (x :: seen)]
      by_cases hax : a = x
      · subst hax; simp [hx]
      · simp [hax]

theorem dedupFirstAux_nodup (l : List String) :
    ∀ seen, (dedupFirstAux seen l).Nodup := by
  induction l with
  | nil => intro seen; simp [dedupFirstAux]
  | cons x xs ih =>
    intro seen
    by_cases hc : seen.contains x = true
    · simpa only [dedupFirstAux, hc, if_pos] using ih seen
    · simp only [dedupFirstAux, hc, Bool.false_eq_true, if_neg, not_false_eq_true,
        List.nodup_cons]
      refine ⟨fun hm => ?_, ih (x :: seen)⟩
      exact ((mem_dedupFirstAux x xs (x :: seen)).mp hm).2 (List.mem_cons_self x seen)

theorem dedupFirstAux_sublist (l : List String) :
    ∀ seen, (dedupFirstAux seen l).Sublist l := by
  induction l with
  | nil => intro seen; simp [dedupFirstAux]
  | cons x xs ih =>
    intro seen
    by_cases hc : seen.contains x = true
    · simp only [dedupFirstAux, hc, if_pos]
      exact (ih seen).trans (List.sublist_cons_self x xs)
    · simp only [dedupFirstAux, hc, Bool.false_eq_true, if_neg, not_false_eq_true]
      exact List.Sublist.cons₂ x (ih (x :: seen))

theorem mem_dedupFirst (a : String) (l : List String) :
    a ∈ dedupFirst l ↔ a ∈ l := by
  rw [dedupFirst, mem_dedupFirstAux]
  simp

theorem dedupFirstAux_congr (l : List String) :
    ∀ seen seen' : List String, (∀ a, seen.contains a = seen'.contains a) →
      dedupFirstAux seen l = dedupFirstAux seen' l := by
  induction l with
  | nil => intro _ _ _; rfl
  | cons x xs ih =>
    intro seen seen' h
    simp only [dedupFirstAux, h x]
    by_cases hc : seen'.contains x = true
    · rw [if_pos hc, if_pos hc]
      exact ih seen seen' h
    · rw [if_neg hc, if_neg hc]
      refine congrArg (x :: ·) (ih (x :: seen) (x :: seen') fun a => ?_)
      rw [List.contains_cons, List.contains_cons, h a]

theorem dedupFirstAux_filter_seen (xs : List String) :
    ∀ (seen : List String) (x : String),
      dedupFirstAux (x :: seen) xs = dedupFirstAux seen (xs.filter fun y => y != x) := by
  induction xs with
  | nil => intro seen x; rfl
  | cons y ys ih =>
    intro seen x
    by_cases hyx : (y != x) = true
    · rw [List.filter_cons, if_pos hyx]
      have hbx : (y == x) = false := beq_eq_false_iff_ne.mpr (bne_iff_ne.mp hyx)
      have hy : (x :: seen).contains y = seen.contains y := by
        rw [List.contains_cons, hbx, Bool.false_or]
      simp only [dedupFirstAux, hy]
      by_cases hc : seen.contains y = true
      · rw [if_pos hc, if_pos hc]
        exact ih seen x
      · rw [if_neg hc, if_neg hc]
        refine congrArg (y :: ·) ?_
        have hswap : dedupFirstAux (y :: x :: seen) ys = dedupFirstAux (x :: y :: seen) ys := by
          refine dedupFirstAux_congr ys _ _ fun a => ?_
          rw [List.contains_cons, List.contains_cons, List.contains_cons, List.contains_cons]
          cases a == y <;> cases a == x <;> rfl
        rw [hswap, ih (y :: seen) x]
    · have hbx : (y == x) = true := by
        rw [Bool.not_eq_true] at hyx
        exact beq_iff_eq.mpr (bne_eq_false_iff_eq.mp hyx)
      rw [List.filter_cons, if_neg hyx]
      have hy : (x :: seen).contains y = true := by
        rw [List.contains_cons, hbx, Bool.true_or]
      simp only [dedupFirstAux, hy, if_pos]
      exact ih seen x

/-- The deduplication keeps the FIRST occurrence of each duplicated path:
    the head is kept and all its later duplicates are removed before the
    rest is deduplicated. Together with `dedupFirst [] = []` this
    recursion determines `dedupFirst` completely. -/
theorem dedupFirst_cons (x : String) (xs : List String) :
    dedupFirst (x :: xs) = x :: dedupFirst (xs.filter fun y => y != x) := by
  show dedupFirstAux [] (x :: xs) = _
  have h0 : (([] : List String).contains x) = false := rfl
  simp only [dedupFirstAux, h0, Bool.false_eq_true, if_neg, not_false_eq_true]
  rw [dedupFirstAux_filter_seen xs [] x]
  rfl

theorem dedupFirst_nodup (l : List String) : (dedupFirst l).Nodup :=
  dedupFirstAux_nodup l []

theorem dedupFirst_sublist (l : List String) : (dedupFirst l).Sublist l :=
  dedupFirstAux_sublist l []

/-- **C5.** `getConfigPaths` offers, in order: the environment override path
(when set), the manifest-declared `configPaths` in declared order, the TS
source candidates (only when `useTsNode` is not explicitly `false` or
force-allow holds), then the compiled candidate under `dist`/`build`/`src`
and the root compiled candidate; the result selects from that candidate
list preserving its order, duplicates are removed keeping the first
occurrence (the result is duplicate-free), and a path is kept exactly when
it ends in `.js`, a TS-capable loader is detected, or force-allow is set.
The first conjunct is the exact equation (dedup then filter of the
candidate list); the second pins keep-first deduplication via its defining
recursion (the head survives, its later duplicates are dropped); the last
conjunct shows a duplicated override surviving at its first position. -/
theorem getConfigPaths_ordered_filtered (cliConfig : Option String)
    (settings : Settings) (fs : FsEnv) :
    getConfigPaths cliConfig settings fs
        = (dedupFirst (specConfigPathCandidates cliConfig settings fs)).filter
            (fun p => strEndsWith p ".js" || fs.tsNodeDetected ||
              settings.alwaysAllowTs.getD fs.bun)
    ∧ (dedupFirst [] = [] ∧ ∀ (x : String) (xs : List String),
        dedupFirst (x :: xs) = x :: dedupFirst (xs.filter fun y => y != x))
    ∧ (getConfigPaths cliConfig settings fs).Sublist
        (specConfigPathCandidates cliConfig settings fs)
    ∧ (∀ p, p ∈ getConfigPaths cliConfig settings fs ↔
        p ∈ specConfigPathCandidates cliConfig settings fs ∧
          (strEndsWith p ".js" = true ∨ fs.tsNodeDetected = true ∨
            settings.alwaysAllowTs.getD fs.bun = true))
    ∧ (getConfigPaths cliConfig settings fs).Nodup
    ∧ getConfigPaths (some "./mikro-orm.config.js") {} {}
        = ["./mikro-orm.config.js", "./src/mikro-orm.config.js"] := by
  have hdef : getConfigPaths cliConfig settings fs
      = (dedupFirst (specConfigPathCandidates cliConfig settings fs)).filter
          (fun p => strEndsWith p ".js" || fs.tsNodeDetected ||
            settings.alwaysAllowTs.getD fs.bun) := by
    cases cliConfig <;>
      simp [getConfigPaths, specConfigPathCandidates, List.append_assoc, Option.toList]
  refine ⟨hdef, ⟨rfl, dedupFirst_cons⟩, ?_, ?_, ?_, rfl⟩
  · rw [hdef]
    exact (List.filter_sublist _).trans (dedupFirst_sublist _)
  · intro p
    rw [hdef, List.mem_filter, mem_dedupFirst]
    simp [Bool.or_eq_true, and_assoc, or_assoc]
  · rw [hdef]
    exact (dedupFirst_nodup _).filter _

/-- Counterexample to C6: with the environment declaring the override
`./orm.config.ts`, no TS-capable loader detected, no `alwaysAllowTs`, and no
bun runtime, `getSettings` does force `useTsNode` on, yet the override path
is removed by the final loadability filter of `getConfigPaths` — it is not
offered as a candidate. -/
theorem tsConfigOverride_not_offered :
    (getSettings {} (fun k =>
        if k == "MIKRO_ORM_CLI_CONFIG" then some "./orm.config.ts" else none)).useTsNode
      = some true
    ∧ getConfigPathsEnv {} (fun k =>
        if k == "MIKRO_ORM_CLI_CONFIG" then some "./orm.config.ts" else none) {}
      = ["./src/mikro-orm.config.js", "./mikro-orm.config.js"]
    ∧ "./orm.config.ts" ∉ getConfigPathsEnv {} (fun k =>
        if k == "MIKRO_ORM_CLI_CONFIG" then some "./orm.config.ts" else none) {} := by
  refine ⟨rfl, rfl, ?_⟩
  intro hmem
  have : "./orm.config.ts" ∈ ["./src/mikro-orm.config.js", "./mikro-orm.config.js"] := hmem
  simp at this

/-- **C6 (amended).** A `.ts`-ending environment config path override forces
`useTsNode` on in `getSettings` (so the TS source candidates are offered
even when the manifest disabled TS), and the override is always in the
candidate list before filtering; but it does not bypass the final
loadability filter: it is offered exactly when it ends in `.js` (it does
not), a TS-capable loader is detected, or force-allow
(`alwaysAllowTs`/bun) holds. -/
theorem tsConfigOverride_forces_useTsNode (pkgSettings : Settings)
    (envv : EnvSnapshot) (fs : FsEnv) (c : String)
    (hc : envv "MIKRO_ORM_CLI_CONFIG" = some c)
    (hts : strEndsWith c ".ts" = true) :
    (getSettings pkgSettings envv).useTsNode = some true
    ∧ (c ∈ getConfigPathsEnv pkgSettings envv fs ↔
        (strEndsWith c ".js" = true ∨ fs.tsNodeDetected = true ∨
          (getSettings pkgSettings envv).alwaysAllowTs.getD fs.bun = true)) := by
  constructor
  · simp only [getSettings, hc, hts, if_pos]
  · rw [getConfigPathsEnv, hc]
    have hmem : c ∈ specConfigPathCandidates (some c) (getSettings pkgSettings envv) fs := by
      simp [specConfigPathCandidates, Option.toList]
    have hdef : getConfigPaths (some c) (getSettings pkgSettings envv) fs
        = (dedupFirst (specConfigPathCandidates (some c) (getSettings pkgSettings envv) fs)).filter
            (fun p => strEndsWith p ".js" || fs.tsNodeDetected ||
              (getSettings pkgSettings envv).alwaysAllowTs.getD fs.bun) := by
      simp [getConfigPaths, specConfigPathCandidates, List.append_assoc, Option.toList]
    rw [hdef, List.mem_filter, mem_dedupFirst]
    simp [hmem, Bool.or_eq_true, or_assoc]

/-- Witness for the amended C6: the forced `useTsNode` at a concrete
environment, and the override surviving once a TS loader is detected. -/
theorem tsConfigOverride_forces_useTsNode_witness :
    (getSettings {} (fun k =>
        if k == "MIKRO_ORM_CLI_CONFIG" then some "./my.config.ts" else none)).useTsNode
      = some true
    ∧ "./my.config.ts" ∈ getConfigPathsEnv {} (fun k =>
        if k == "MIKRO_ORM_CLI_CONFIG" then some "./my.config.ts" else none)
        { tsNodeDetected := true } := by
  refine ⟨(tsConfigOverride_forces_useTsNode {} _ { tsNodeDetected := true }
      "./my.config.ts" rfl rfl).1, ?_⟩
  exact (tsConfigOverride_forces_useTsNode {} _ { tsNodeDetected := true }
      "./my.config.ts" rfl rfl).2.mpr (Or.inr (Or.inl rfl))

theorem firstMismatch_eq_none_iff (coreVersion : String)
    (pkgVersion : String → Option String) (l : List String) :
    firstMismatch coreVersion pkgVersion l = none ↔
      ∀ p ∈ l, ∀ v, pkgVersion p = some v → v = coreVersion := by
  induction l with
  | nil => simp [firstMismatch]
  | cons p rest ih =>
    cases hpv : pkgVersion p with
    | none => simp [firstMismatch, hpv, ih]
    | some v =>
      by_cases hv : v = coreVersion
      · subst hv
        simp [firstMismatch, hpv, ih]
      · have hb : (v != coreVersion) = true := bne_iff_ne.mpr hv
        simp only [firstMismatch, hpv, hb, if_pos]
        constructor
        · intro hh; exact (Option.some_ne_none _ hh).elim
        · intro hall; exact (hv (hall p (List.mem_cons_self p rest) v hpv)).elim

theorem firstMismatch_eq_some (coreVersion : String)
    (pkgVersion : String → Option String) (l : List String) (p v : String)
    (h : firstMismatch coreVersion pkgVersion l = some (p, v)) :
    p ∈ l ∧ pkgVersion p = some v ∧ v ≠ coreVersion := by
  induction l with
  | nil => simp [firstMismatch] at h
  | cons q rest ih =>
    cases hpv : pkgVersion q with
    | none =>
      rw [firstMismatch, hpv] at h
      obtain ⟨h1, h2, h3⟩ := ih h
      exact ⟨List.mem_cons_of_mem q h1, h2, h3⟩
    | some w =>
      by_cases hw : (w != coreVersion) = true
      · simp only [firstMismatch, hpv, hw, if_pos, Option.some.injEq, Prod.mk.injEq] at h
        obtain ⟨rfl, rfl⟩ := h
        exact ⟨List.mem_cons_self q rest, hpv, bne_iff_ne.mp hw⟩
      · simp only [firstMismatch, hpv, hw, if_neg, Bool.false_eq_true, not_false_eq_true] at h
        obtain ⟨h1, h2, h3⟩ := ih h
        exact ⟨List.mem_cons_of_mem q h1, h2, h3⟩

/-- **C8.** `checkPackageVersion`: with the bypass flag the whole check is
skipped and the core version returned; without it, if every companion
package (named by the `@mikro-orm/` namespace, excluding core and the fixed
exception set) has an undeterminable version or the core version, the core
version is returned (undeterminable versions are silently skipped); and if
some companion package has a determinable version different from the core
version, the check fails with an error naming an offending package, its
version and the core version. -/
theorem checkPackageVersion_spec (coreVersion : String)
    (dependencies devDependencies : List String)
    (pkgVersion : String → Option String) :
    checkPackageVersion coreVersion true dependencies devDependencies pkgVersion
        = .ok coreVersion
    ∧ ((∀ p ∈ dependencies ++ devDependencies, isCompanionPackage p = true →
          ∀ v, pkgVersion p = some v → v = coreVersion) →
        checkPackageVersion coreVersion false dependencies devDependencies pkgVersion
          = .ok coreVersion)
    ∧ ((∃ p ∈ dependencies ++ devDependencies, isCompanionPackage p = true ∧
          ∃ v, pkgVersion p = some v ∧ v ≠ coreVersion) →
        ∃ p v, checkPackageVersion coreVersion false dependencies devDependencies pkgVersion
            = .error (.versionMismatch p v coreVersion)
          ∧ p ∈ dependencies ++ devDependencies ∧ isCompanionPackage p = true
          ∧ pkgVersion p = some v ∧ v ≠ coreVersion) := by
  refine ⟨rfl, ?_, ?_⟩
  · intro hall
    have hnone : firstMismatch coreVersion pkgVersion
        ((getORMPackages dependencies devDependencies).filter isCompanionPackage) = none := by
      rw [firstMismatch_eq_none_iff]
      intro p hp v hv
      obtain ⟨hp1, hp2⟩ := List.mem_filter.mp hp
      exact hall p ((mem_dedupFirst p _).mp hp1) hp2 v hv
    simp [checkPackageVersion, hnone]
  · rintro ⟨p, hp, hcomp, v, hv, hne⟩
    cases hfm : firstMismatch coreVersion pkgVersion
        ((getORMPackages dependencies devDependencies).filter isCompanionPackage) with
    | none =>
      exfalso
      have hall := (firstMismatch_eq_none_iff coreVersion pkgVersion _).mp hfm
      have hmem : p ∈ (getORMPackages dependencies devDependencies).filter isCompanionPackage :=
        List.mem_filter.mpr ⟨(mem_dedupFirst p _).mpr hp, hcomp⟩
      exact hne (hall p hmem v hv)
    | some qw =>
      obtain ⟨q, w⟩ := qw
      obtain ⟨hq1, hq2, hq3⟩ := firstMismatch_eq_some coreVersion pkgVersion _ q w hfm
      obtain ⟨hq1a, hq1b⟩ := List.mem_filter.mp hq1
      refine ⟨q, w, ?_, (mem_dedupFirst q _).mp hq1a, hq1b, hq2, hq3⟩
      simp [checkPackageVersion, hfm]

/-- Witness for C8: the bypass flag, an undeterminable companion plus an
exception-set package (both skipped), and a genuine mismatch. -/
theorem checkPackageVersion_spec_witness :
    checkPackageVersion "6.0.0" true ["@mikro-orm/mysql"] [] (fun _ => some "5.0.0")
        = .ok "6.0.0"
    ∧ checkPackageVersion "6.0.0" false ["@mikro-orm/mysql", "@mikro-orm/nestjs"] []
        (fun p => if p == "@mikro-orm/mysql" then none else some "1.0.0")
        = .ok "6.0.0"
    ∧ ∃ p v, checkPackageVersion "6.0.0" false [] ["@mikro-orm/postgresql"]
          (fun _ => some "5.9.0")
        = .error (.versionMismatch p v "6.0.0") ∧ p ∈ ([] : List String) ++ ["@mikro-orm/postgresql"]
        ∧ isCompanionPackage p = true ∧ (fun _ => some "5.9.0") p = some v ∧ v ≠ "6.0.0" := by
  refine ⟨(checkPackageVersion_spec "6.0.0" ["@mikro-orm/mysql"] []
      (fun _ => some "5.0.0")).1, ?_, ?_⟩
  · refine (checkPackageVersion_spec "6.0.0" ["@mikro-orm/mysql", "@mikro-orm/nestjs"] []
      (fun p => if p == "@mikro-orm/mysql" then none else some "1.0.0")).2.1 ?_
    intro p hp hcomp v hv
    fin_cases hp
    · exact absurd hv (by simp)
    · exact absurd hcomp (by decide)
  · exact (checkPackageVersion_spec "6.0.0" [] ["@mikro-orm/postgresql"]
      (fun _ => some "5.9.0")).2.2
      ⟨"@mikro-orm/postgresql", by decide, by decide, "5.9.0", rfl, by decide⟩

/-- **C10.** A config produced by a factory (a top-level exported function,
or a callable array entry used as fallback) that lacks a `contextName`
field is accepted for every requested context name; a plain-object export
lacking a `contextName` field is accepted only when the requested context
name is exactly `"default"`. -/
theorem factory_contextName_optional (contextName path : String) (fs : Fields)
    (h : lookupKey fs "contextName" = none) :
    selectConfig contextName path (.func fun _ => .obj fs) = .ok (.obj fs)
    ∧ selectConfig contextName path (.arr [.func fun _ => .obj fs]) = .ok (.obj fs)
    ∧ (contextName = "default" → selectConfig contextName path (.obj fs) = .ok (.obj fs))
    ∧ (contextName ≠ "default" →
        selectConfig contextName path (.obj fs)
          = .error (.objectMismatch contextName path)) := by
  have hvalid : isValidConfigFactoryResult contextName (.obj fs) = true := by
    simp [isValidConfigFactoryResult, h]
  refine ⟨?_, ?_, ?_, ?_⟩
  · simp [selectConfig, hvalid]
  · simp [selectConfig, findFirstIdx?, configFinder, firstFactoryResult, hvalid, JValue.isArr]
  · intro hd
    subst hd
    simp [selectConfig, configFinder, h]
  · intro hd
    have hb : (contextName == "default") = false := by
      simp [beq_iff_eq]; exact hd
    simp [selectConfig, configFinder, h, hb]

/-- Witness for C10: a `contextName`-less object is accepted from a factory
and from a callable array entry under a non-default context, accepted as a
plain export only under `"default"`, and rejected as a plain export under a
non-default context. -/
theorem factory_contextName_optional_witness :
    selectConfig "other" "p" (.func fun _ => .obj [("dbName", .str "d")])
        = .ok (.obj [("dbName", .str "d")])
    ∧ selectConfig "other" "p" (.arr [.func fun _ => .obj [("dbName", .str "d")]])
        = .ok (.obj [("dbName", .str "d")])
    ∧ selectConfig "default" "p" (.obj [("dbName", .str "d")])
        = .ok (.obj [("dbName", .str "d")])
    ∧ selectConfig "other" "p" (.obj [("dbName", .str "d")])
        = .error (.objectMismatch "other" "p") :=
  ⟨(factory_contextName_optional "other" "p" [("dbName", .str "d")] rfl).1,
   (factory_contextName_optional "other" "p" [("dbName", .str "d")] rfl).2.1,
   (factory_contextName_optional "default" "p" [("dbName", .str "d")] rfl).2.2.1 rfl,
   (factory_contextName_optional "other" "p" [("dbName", .str "d")] rfl).2.2.2 (by decide)⟩

theorem findFirstIdx?_eq_none_iff (p : α → Bool) (l : List α) :
    findFirstIdx? p l = none ↔ ∀ x ∈ l, p x = false := by
  induction l with
  | nil => simp [findFirstIdx?]
  | cons x xs ih =>
    by_cases hx : p x <;>
      simp [findFirstIdx?, hx, Option.map_eq_none', ih]

theorem findLastIdx?_eq_none_iff (p : α → Bool) (l : List α) :
    findLastIdx? p l = none ↔ ∀ x ∈ l, p x = false := by
  induction l with
  | nil => simp [findLastIdx?]
  | cons x xs ih =>
    cases hl : findLastIdx? p xs with
    | some i =>
      have hne : ¬∀ y ∈ xs, p y = false := fun hall => by
        rw [ih.mpr hall] at hl
        exact Option.noConfusion hl
      simp only [findLastIdx?, hl, List.mem_cons]
      constructor
      · intro hh; exact (Option.some_ne_none _ hh).elim
      · intro hall; exact (hne fun y hy => hall y (Or.inr hy)).elim
    | none =>
      by_cases hx : p x
      · simp [findLastIdx?, hl, hx]
      · simp only [findLastIdx?, hl]
        rw [if_neg hx]
        constructor
        · intro _ a ha
          rcases List.mem_cons.mp ha with h | h
          · subst h; exact Bool.eq_false_iff.mpr hx
          · exact ih.mp hl a h
        · intro _; rfl

theorem filter_singleton_select (p : JValue → Bool) (l : List JValue) (c : JValue)
    (hfil : l.filter p = [c]) :
    ∃ i, findFirstIdx? p l = some i ∧ findLastIdx? p l = some i ∧
      l.getD i .null = c := by
  induction l with
  | nil => simp at hfil
  | cons x xs ih =>
    by_cases hx : p x
    · rw [List.filter_cons_of_pos hx] at hfil
      obtain ⟨rfl, h2⟩ := List.cons.injEq _ _ _ _ ▸ hfil
      have hnone : findLastIdx? p xs = none :=
        (findLastIdx?_eq_none_iff p xs).mpr fun a ha =>
          Bool.eq_false_iff.mpr (List.filter_eq_nil_iff.mp h2 a ha)
      exact ⟨0, by simp [findFirstIdx?, hx], by simp [findLastIdx?, hnone, hx], rfl⟩
    · rw [List.filter_cons_of_neg hx] at hfil
      obtain ⟨i, h1, h2, h3⟩ := ih hfil
      refine ⟨i + 1, ?_, ?_, ?_⟩
      · simp [findFirstIdx?, hx, h1]
      · simp [findLastIdx?, h2]
      · simpa [List.getD_cons_succ] using h3

theorem two_matches_first_last (p : JValue → Bool) (l : List JValue)
    (h : 2 ≤ l.countP p) :
    ∃ i j, i < j ∧ findFirstIdx? p l = some i ∧ findLastIdx? p l = some j := by
  induction l with
  | nil => simp [List.countP_nil] at h
  | cons x xs ih =>
    rw [List.countP_cons] at h
    by_cases hx : p x
    · rw [if_pos hx] at h
      have h1 : 0 < xs.countP p := by omega
      obtain ⟨a, ha, hpa⟩ := List.countP_pos_iff.mp h1
      have hts : findLastIdx? p xs ≠ none := fun hn => by
        rw [(findLastIdx?_eq_none_iff p xs).mp hn a ha] at hpa
        exact Bool.false_ne_true hpa
      obtain ⟨j, hj⟩ := Option.ne_none_iff_exists'.mp hts
      exact ⟨0, j + 1, Nat.succ_pos j, by simp [findFirstIdx?, hx],
        by simp [findLastIdx?, hj]⟩
    · rw [if_neg hx] at h
      have h2 : 2 ≤ xs.countP p := by omega
      obtain ⟨i, j, hij, h1, hlast⟩ := ih h2
      exact ⟨i + 1, j + 1, Nat.succ_lt_succ hij,
        by simp [findFirstIdx?, hx, h1], by simp [findLastIdx?, hlast]⟩

theorem firstFactoryResult_eq_none_of (contextName : String) (entries : List JValue)
    (h : ∀ e ∈ entries, ∀ f, e = .func f →
      isValidConfigFactoryResult contextName (f contextName) = false) :
    firstFactoryResult contextName entries = none := by
  induction entries with
  | nil => rfl
  | cons e rest ih =>
    have ihr := ih fun x hx => h x (List.mem_cons_of_mem e hx)
    cases e
    case func f =>
      have hf := h (.func f) (List.mem_cons_self _ _) f rfl
      simpa [firstFactoryResult, hf] using ihr
    all_goals simpa [firstFactoryResult] using ihr

theorem firstFactoryResult_append (contextName : String) (pre : List JValue)
    (f : String → JValue) (post : List JValue)
    (hpre : ∀ e ∈ pre, ∀ g, e = .func g →
      isValidConfigFactoryResult contextName (g contextName) = false)
    (hf : isValidConfigFactoryResult contextName (f contextName) = true) :
    firstFactoryResult contextName (pre ++ .func f :: post) = some (f contextName) := by
  induction pre with
  | nil => simp [firstFactoryResult, hf]
  | cons e rest ih =>
    have ihr := ih fun x hx => hpre x (List.mem_cons_of_mem e hx)
    cases e
    case func g =>
      have hg := hpre (.func g) (List.mem_cons_self _ _) g rfl
      simpa [firstFactoryResult, hg] using ihr
    all_goals simpa [firstFactoryResult] using ihr

/-- **C2 (amended).** Array disambiguation in `getConfiguration`: with
exactly one matching entry (the filter by the context finder is a
singleton) that entry is selected; with two or more matches it fails with
the non-unique-context error carrying the first and last matching indices;
with no match, the callable entries are invoked in order and the scan stops
at the first result that is a non-null object (arrays included) whose
`contextName` is absent or equal to the requested name — if that result is
not an array it is selected, while if it is an array, or if no callable
yields such a result, the config-not-found-in-array error naming the
context and the file path is raised. -/
theorem selectConfig_array_disambiguation (contextName path : String)
    (entries : List JValue) :
    (∀ c, entries.filter (configFinder contextName) = [c] →
      selectConfig contextName path (.arr entries) = .ok c)
    ∧ (2 ≤ entries.countP (configFinder contextName) →
      ∃ i j, i < j ∧ findFirstIdx? (configFinder contextName) entries = some i
        ∧ findLastIdx? (configFinder contextName) entries = some j
        ∧ selectConfig contextName path (.arr entries)
            = .error (.notUnique contextName path i j))
    ∧ ((∀ e ∈ entries, configFinder contextName e = false) →
      ((∀ e ∈ entries, ∀ f, e = .func f →
          isValidConfigFactoryResult contextName (f contextName) = false) →
        selectConfig contextName path (.arr entries)
          = .error (.notFoundInArray contextName path))
      ∧ (∀ pre f post, entries = pre ++ .func f :: post →
          (∀ e ∈ pre, ∀ g, e = .func g →
            isValidConfigFactoryResult contextName (g contextName) = false) →
          isValidConfigFactoryResult contextName (f contextName) = true →
          ((f contextName).isArr = false →
            selectConfig contextName path (.arr entries) = .ok (f contextName))
          ∧ ((f contextName).isArr = true →
            selectConfig contextName path (.arr entries)
              = .error (.notFoundInArray contextName path)))) := by
  refine ⟨?_, ?_, ?_⟩
  · intro c hfil
    obtain ⟨i, h1, h2, h3⟩ := filter_singleton_select _ entries c hfil
    have h3g : entries[i]?.getD JValue.null = c := by
      rw [← List.getD_eq_getElem?_getD]; exact h3
    simp [selectConfig, h1, h2, h3, h3g]
  · intro h
    obtain ⟨i, j, hij, h1, h2⟩ := two_matches_first_last _ entries h
    refine ⟨i, j, hij, h1, h2, ?_⟩
    simp [selectConfig, h1, h2, Nat.ne_of_gt hij]
  · intro h0
    have hfi : findFirstIdx? (configFinder contextName) entries = none :=
      (findFirstIdx?_eq_none_iff _ entries).mpr h0
    constructor
    · intro hall
      simp [selectConfig, hfi, firstFactoryResult_eq_none_of contextName entries hall]
    · intro pre f post hsplit hpre hf
      have hres : firstFactoryResult contextName entries = some (f contextName) := by
        rw [hsplit]
        exact firstFactoryResult_append contextName pre f post hpre hf
      constructor <;> intro harr <;> simp [selectConfig, hfi, hres, harr]

/-- Counterexample to C2: in the factory fallback, the scan stops at the
first result accepted by the validity check, and arrays are accepted by it
(`typeof [] === 'object'`, no own `contextName`); the subsequent
`Array.isArray` recheck then raises the not-found error, so a factory
result that is an array is not selected, and a later factory producing a
selectable plain object is never consulted — under either reading, the
claim predicts success here while the code fails. -/
theorem selectConfig_array_factory_result_not_selected :
    isValidConfigFactoryResult "default" (.arr []) = true
    ∧ selectConfig "default" "p" (.arr [.func fun _ => .arr []])
        = .error (.notFoundInArray "default" "p")
    ∧ selectConfig "default" "p"
        (.arr [.func fun _ => .arr [], .func fun _ => .obj [("x", .num 1)]])
        = .error (.notFoundInArray "default" "p") :=
  ⟨rfl, rfl, rfl⟩

/-- Witness for the amended C2: unique match selected, duplicate context
rejected with both indices, empty factory scan rejected, and a valid
factory result selected. -/
theorem selectConfig_array_disambiguation_witness :
    selectConfig "a" "p"
        (.arr [.obj [("contextName", .str "a")], .obj [("contextName", .str "b")]])
      = .ok (.obj [("contextName", .str "a")])
    ∧ selectConfig "a" "p"
        (.arr [.obj [("contextName", .str "a")], .obj [("contextName", .str "a")]])
      = .error (.notUnique "a" "p" 0 1)
    ∧ selectConfig "c" "p" (.arr [.obj [("contextName", .str "a")]])
      = .error (.notFoundInArray "c" "p")
    ∧ selectConfig "c" "p" (.arr [.func fun _ => .obj [("dbName", .str "d")]])
      = .ok (.obj [("dbName", .str "d")]) := by
  refine ⟨?_, ?_, ?_, ?_⟩
  · exact (selectConfig_array_disambiguation "a" "p" _).1 _ rfl
  · obtain ⟨i, j, hij, h1, h2, h3⟩ :=
      (selectConfig_array_disambiguation "a" "p"
        [.obj [("contextName", .str "a")], .obj [("contextName", .str "a")]]).2.1
        (by decide)
    have e1 : findFirstIdx? (configFinder "a")
        [JValue.obj [("contextName", .str "a")], .obj [("contextName", .str "a")]]
          = some 0 := rfl
    have e2 : findLastIdx? (configFinder "a")
        [JValue.obj [("contextName", .str "a")], .obj [("contextName", .str "a")]]
          = some 1 := rfl
    rw [e1] at h1
    rw [e2] at h2
    injection h1 with h1'
    injection h2 with h2'
    subst h1'
    subst h2'
    exact h3
  · refine ((selectConfig_array_disambiguation "c" "p"
      [.obj [("contextName", .str "a")]]).2.2 (by decide)).1 ?_
    intro e he f hf
    fin_cases he
    simp at hf
  · refine (((selectConfig_array_disambiguation "c" "p"
      [.func fun _ => .obj [("dbName", .str "d")]]).2.2 ?_).2
      [] (fun _ => .obj [("dbName", .str "d")]) [] rfl ?_ rfl).1 rfl
    · intro e he
      fin_cases he
      rfl
    · intro e he
      exact absurd he (List.not_mem_nil e)

end ConfigurationLoader
